import Mathlib

/-!
Verification of the policy-merge script (`scripts/apply-policy.py`) and the
review-invoker helper (`skills/code-review/codex-reviewer/scripts/codex_review.py`).

JSON documents are modelled by the inductive type `JValue` (numbers are
modelled as integers; floating-point literals are outside the model).
Python dicts preserve insertion order, so objects are association lists in
insertion order; assignment to an existing key replaces the value in place,
assignment to a fresh key appends at the end (`setField`).  Fallible Python
code (operations that can raise) is modelled with `Option`/`Except`.
-/

inductive JValue where
  | null : JValue
  | bool (b : Bool) : JValue
  | num (n : Int) : JValue
  | str (s : String) : JValue
  | arr (xs : List JValue) : JValue
  | obj (fields : List (String × JValue)) : JValue

/-- Python `==` on JSON-decoded values, restricted to the hashable (scalar)
values that can legally appear in membership tests against a `set`.
Python's `bool` is a subclass of `int`, so `True == 1` and `False == 0`.
Lists and dicts are unhashable, so the merge code raises `TypeError`
before ever comparing them; the `arr`/`obj` rows are unreachable under the
`hashable` guards and return `false`. -/
def pyEq : JValue → JValue → Bool
  | .null, .null => true
  | .bool b, .bool c => b == c
  | .bool b, .num n => (if b then (1 : Int) else 0) == n
  | .num n, .bool b => n == (if b then (1 : Int) else 0)
  | .num m, .num n => m == n
  | .str s, .str t => s == t
  | _, _ => false

/-- Whether a JSON-decoded Python value is hashable (usable in a `set` /
as a `set` member).  Lists and dicts are not. -/
def hashable : JValue → Bool
  | .arr _ => false
  | .obj _ => false
  | _ => true

/-- Python truthiness of a JSON-decoded value (`if policy.get("forceMcpTrust"):`).
`None`, `False`, `0`, `""`, `[]` and `{}` are falsy; everything else is truthy. -/
def truthy : JValue → Bool
  | .null => false
  | .bool b => b
  | .num n => n != 0
  | .str s => s != ""
  | .arr xs => !xs.isEmpty
  | .obj fs => !fs.isEmpty

/-- First binding of key `k` in an association list (Python `d.get(k)` /
`d[k]` lookup; real dicts have unique keys, so first = only). -/
def lookupField : List (String × JValue) → String → Option JValue
  | [], _ => none
  | (k', v) :: rest, k => if k' = k then some v else lookupField rest k

/-- Python dict assignment `d[k] = v`: replace the value in place if the key
is present (its position is unchanged), otherwise append the new binding. -/
def setField : List (String × JValue) → String → JValue → List (String × JValue)
  | [], k, v => [(k, v)]
  | (k', v') :: rest, k, v =>
      if k' = k then (k, v) :: rest else (k', v') :: setField rest k v

/-- Python `d.setdefault(k, dflt)`: return the existing value and the
unchanged dict if the key is present, otherwise insert `dflt` at the end
and return it. -/
def setdefault (fs : List (String × JValue)) (k : String) (dflt : JValue) :
    JValue × List (String × JValue) :=
  match lookupField fs k with
  | some v => (v, fs)
  | none => (dflt, fs ++ [(k, dflt)])

/-- Membership of `x` in a Python list/set of JSON values, by Python `==`. -/
def memPy (x : JValue) (l : List JValue) : Bool :=
  l.any (fun y => pyEq y x)

/-! ## Serialization: model of CPython `json.dump(data, f, indent=2)` -/

/-- Lower-case hexadecimal digit. -/
def hexDigit (n : Nat) : Char :=
  if n < 10 then Char.ofNat (48 + n) else Char.ofNat (87 + n)

/-- Four lower-case hex digits, as in `json`'s `\uXXXX` escapes. -/
def hex4 (n : Nat) : String :=
  ⟨[hexDigit (n / 4096 % 16), hexDigit (n / 256 % 16),
    hexDigit (n / 16 % 16), hexDigit (n % 16)]⟩

/-- Escape of a single character inside a JSON string, per CPython `json`
with its default `ensure_ascii=True` (non-ASCII characters become `\uXXXX`,
with surrogate pairs above U+FFFF). -/
def escapeChar (c : Char) : String :=
  if c = '"' then "\\\""
  else if c = '\\' then "\\\\"
  else if c = '\n' then "\\n"
  else if c = '\r' then "\\r"
  else if c = '\t' then "\\t"
  else if c.toNat = 8 then "\\b"
  else if c.toNat = 12 then "\\f"
  else if c.toNat < 32 then "\\u" ++ hex4 c.toNat
  else if c.toNat < 128 then String.singleton c
  else if c.toNat < 65536 then "\\u" ++ hex4 c.toNat
  else
    "\\u" ++ hex4 (55296 + (c.toNat - 65536) / 1024)
      ++ "\\u" ++ hex4 (56320 + (c.toNat - 65536) % 1024)

/-- JSON string literal for `s`. -/
def serializeStr (s : String) : String :=
  "\"" ++ String.join (s.toList.map escapeChar) ++ "\""

/-- `n` copies of the two-space indent unit (`indent=2`). -/
def indentStr (n : Nat) : String :=
  String.join (List.replicate n "  ")

mutual
/-- `json.dump(v, f, indent=2)` at nesting depth `ind`. -/
def serialize : Nat → JValue → String
  | _, .null => "null"
  | _, .bool true => "true"
  | _, .bool false => "false"
  | _, .num n => toString n
  | _, .str s => serializeStr s
  | _, .arr [] => "[]"
  | ind, .arr (x :: xs) =>
      "[\n" ++ indentStr (ind + 1) ++ serialize (ind + 1) x
        ++ serializeArrRest (ind + 1) xs ++ "\n" ++ indentStr ind ++ "]"
  | _, .obj [] => "\x7b\x7d"
  | ind, .obj ((k, v) :: fs) =>
      "\x7b\n" ++ indentStr (ind + 1) ++ serializeStr k ++ ": "
        ++ serialize (ind + 1) v ++ serializeObjRest (ind + 1) fs
        ++ "\n" ++ indentStr ind ++ "\x7d"

/-- Remaining array items, each preceded by `,\n` and the indent. -/
def serializeArrRest : Nat → List JValue → String
  | _, [] => ""
  | ind, x :: xs =>
      ",\n" ++ indentStr ind ++ serialize ind x ++ serializeArrRest ind xs

/-- Remaining object entries, each preceded by `,\n` and the indent. -/
def serializeObjRest : Nat → List (String × JValue) → String
  | _, [] => ""
  | ind, (k, v) :: fs =>
      ",\n" ++ indentStr ind ++ serializeStr k ++ ": " ++ serialize ind v
        ++ serializeObjRest ind fs
end

/-- The bytes `write_json` puts in the file: `json.dump(data, f, indent=2)`
followed by `f.write("\n")` (pretty-printed with a trailing newline). -/
def writeJsonString (v : JValue) : String :=
  serialize 0 v ++ "\n"

/-! ## File model and the two merge routines of `scripts/apply-policy.py` -/

/-- The state of one settings file: its parsed JSON content (`none` when the
file does not exist) and whether its parent directory exists. -/
structure MFile where
  data : Option JValue
  dirExists : Bool

/-- `read_json(path, default)` (lines 6-10): the parsed file content, or
`default` when the file does not exist.  (A file that exists but holds
malformed JSON raises; files in this model hold parsed values, so that
fatal path is outside the state space.) -/
def read_json (f : MFile) (dflt : JValue) : JValue :=
  (f.data).getD dflt

/-- `write_json(path, data)` (lines 13-17): create the parent directories
(`path.parent.mkdir(parents=True, exist_ok=True)`), then write the
pretty-printed document with a trailing newline. -/
def write_json (v : JValue) : MFile :=
  ⟨some v, true⟩

/-- Serialized bytes of the file, when it exists. -/
def fileBytes (f : MFile) : Option String :=
  f.data.map writeJsonString

/-- Python iteration over `policy.get("permissionsAllow", [])`: a list
yields its elements, a string yields its one-character substrings, a dict
yields its keys; `None`, booleans and numbers raise `TypeError`. -/
def iterItems : JValue → Option (List JValue)
  | .arr xs => some xs
  | .str s => some (s.toList.map fun c => .str (String.singleton c))
  | .obj fs => some (fs.map fun kv => .str kv.1)
  | _ => none

/-- The items iterated by the `for item in policy.get("permissionsAllow", [])`
loop (line 28).  `policy.get` raises `AttributeError` when `policy` is not a
dict. -/
def policyItems (policy : JValue) : Option (List JValue) :=
  match policy with
  | .obj pfs => iterItems ((lookupField pfs "permissionsAllow").getD (.arr []))
  | _ => none

/-- The loop of lines 26-31: `allow_set = set(allow)` followed by
`for item in items: if item not in allow_set: allow.append(item); allow_set.add(item)`.
The set always holds exactly the elements of the current list, so the
membership test is membership in the accumulated list. -/
def appendMissing (allow items : List JValue) : List JValue :=
  items.foldl (fun acc it => if memPy it acc then acc else acc ++ [it]) allow

/-- In-memory body of `ensure_claude_permissions` (lines 24-31), between
`read_json` and `write_json`: `settings.setdefault("permissions", {})`,
`permissions.setdefault("allow", [])`, then the dedup-append loop.
`none` models a raised exception: `settings`/`permissions` not a dict,
`allow` not a list, unhashable values in `set(allow)` or among the items,
or a policy whose `permissionsAllow` cannot be iterated. -/
def mergeClaude (settings policy : JValue) : Option JValue :=
  match settings with
  | .obj sfs =>
    match setdefault sfs "permissions" (.obj []) with
    | (.obj pfs, sfs1) =>
      match setdefault pfs "allow" (.arr []) with
      | (.arr allow, pfs1) =>
        match policyItems policy with
        | some items =>
          if allow.all hashable && items.all hashable then
            some (.obj (setField sfs1 "permissions"
              (.obj (setField pfs1 "allow" (.arr (appendMissing allow items))))))
          else none
        | none => none
      | _ => none
    | _ => none
  | _ => none

/-- `ensure_claude_permissions(home, policy)` (lines 20-34) acting on the
state of `~/.claude/settings.local.json`: read (missing file = `{}`),
merge in memory, write back. -/
def ensure_claude_permissions (f : MFile) (policy : JValue) : Option MFile :=
  (mergeClaude (read_json f (.obj [])) policy).map write_json

/-- `server_cfg["trust"] = True` guarded by `isinstance(server_cfg, dict)`
(lines 44-45): non-dict entries are left untouched. -/
def setTrust : JValue → JValue
  | .obj fs => .obj (setField fs "trust" (.bool true))
  | v => v

/-- In-memory body of `ensure_gemini_mcp_trust` (lines 41-45): when the
policy's `forceMcpTrust` is truthy, set `trust` to `True` in every
dict-valued entry of `settings.get("mcpServers", {})`; otherwise leave the
settings as loaded.  `none` models a raised exception: `policy.get` on a
non-dict policy, `settings.get` on non-dict settings, or `.items()` on a
non-dict `mcpServers` value. -/
def mergeGemini (settings policy : JValue) : Option JValue :=
  match policy with
  | .obj pfs =>
    if truthy ((lookupField pfs "forceMcpTrust").getD .null) then
      match settings with
      | .obj sfs =>
        match lookupField sfs "mcpServers" with
        | none => some settings
        | some (.obj ms) =>
            some (.obj (setField sfs "mcpServers"
              (.obj (ms.map fun kv => (kv.1, setTrust kv.2)))))
        | some _ => none
      | _ => none
    else some settings
  | _ => none

/-- `ensure_gemini_mcp_trust(home, policy)` (lines 37-48) acting on the
state of `~/.gemini/settings.json`: read (missing file = `{}`), merge in
memory, write back (the write happens even when nothing was mutated). -/
def ensure_gemini_mcp_trust (f : MFile) (policy : JValue) : Option MFile :=
  (mergeGemini (read_json f (.obj [])) policy).map write_json

/-! ## A model of `json.loads` (recursive-descent parser over the modelled
JSON value domain: integer numerals; floating-point literals and lone
surrogates are outside the model and rejected). -/

/-- Opening brace character (U+007B). -/
def lbrace : Char := Char.ofNat 123

/-- Closing brace character (U+007D). -/
def rbrace : Char := Char.ofNat 125

/-- Skip JSON whitespace (space, tab, newline, carriage return). -/
def skipWs : List Char → List Char
  | c :: rest =>
      if c = ' ' || c = '\t' || c = '\n' || c = '\r' then skipWs rest
      else c :: rest
  | [] => []

/-- Digits prefix of a character list, as a reversed accumulator-free span. -/
def takeDigits : List Char → List Char × List Char
  | c :: rest =>
      if c.isDigit then
        let (ds, r) := takeDigits rest
        (c :: ds, r)
      else ([], c :: rest)
  | [] => ([], [])

/-- Numeric value of a digit string. -/
def digitsToNat : List Char → Nat
  | ds => ds.foldl (fun acc c => acc * 10 + (c.toNat - 48)) 0

/-- Parse the body of a JSON string after the opening quote, handling the
standard escapes; `\uXXXX` escapes combine surrogate pairs.  Fails on raw
control characters (`json.loads` is strict) and on inputs outside the
model (lone surrogates, bad escapes). -/
def parseStringBody : List Char → Option (String × List Char)
  | [] => none
  | c :: rest =>
    if c = '"' then some ("", rest)
    else if c = '\\' then
      match rest with
      | [] => none
      | e :: rest2 =>
        let simple : Option Char :=
          if e = '"' then some '"'
          else if e = '\\' then some '\\'
          else if e = '/' then some '/'
          else if e = 'n' then some '\n'
          else if e = 't' then some '\t'
          else if e = 'r' then some '\r'
          else if e = 'b' then some (Char.ofNat 8)
          else if e = 'f' then some (Char.ofNat 12)
          else none
        match simple with
        | some ch =>
          match parseStringBody rest2 with
          | some (s, r) => some (String.singleton ch ++ s, r)
          | none => none
        | none =>
          if e = 'u' then
            match rest2 with
            | h1 :: h2 :: h3 :: h4 :: rest3 =>
              let hv : Char → Option Nat := fun h =>
                if h.isDigit then some (h.toNat - 48)
                else if 'a' ≤ h ∧ h ≤ 'f' then some (h.toNat - 87)
                else if 'A' ≤ h ∧ h ≤ 'F' then some (h.toNat - 55)
                else none
              match hv h1, hv h2, hv h3, hv h4 with
              | some a, some b, some c', some d =>
                let n := a * 4096 + b * 256 + c' * 16 + d
                if 55296 ≤ n ∧ n < 56320 then
                  match rest3 with
                  | '\\' :: 'u' :: g1 :: g2 :: g3 :: g4 :: rest4 =>
                    match hv g1, hv g2, hv g3, hv g4 with
                    | some a2, some b2, some c2, some d2 =>
                      let m := a2 * 4096 + b2 * 256 + c2 * 16 + d2
                      if 56320 ≤ m ∧ m < 57344 then
                        match parseStringBody rest4 with
                        | some (s, r) =>
                            some (String.singleton
                              (Char.ofNat (65536 + (n - 55296) * 1024 + (m - 56320))) ++ s, r)
                        | none => none
                      else none
                    | _, _, _, _ => none
                  | _ => none
                else if 56320 ≤ n ∧ n < 57344 then none
                else
                  match parseStringBody rest3 with
                  | some (s, r) => some (String.singleton (Char.ofNat n) ++ s, r)
                  | none => none
              | _, _, _, _ => none
            | _ => none
          else none
    else if c.toNat < 32 then none
    else
      match parseStringBody rest with
      | some (s, r) => some (String.singleton c ++ s, r)
      | none => none

/-- Remove the first binding of key `k` (a parsed dict has unique keys, so
first = only). -/
def eraseField : List (String × JValue) → String → List (String × JValue)
  | [], _ => []
  | (k', v') :: rest, k => if k' = k then rest else (k', v') :: eraseField rest k

/-- Combine the first parsed object entry `(k, v)` with the dict built from
the remaining entries, replicating Python's sequential `d[k] = v` insertion:
a key duplicated later keeps this first position but takes the later value. -/
def setFieldEntry (k : String) (v : JValue) (fs : List (String × JValue)) :
    List (String × JValue) :=
  match lookupField fs k with
  | some v' => (k, v') :: eraseField fs k
  | none => (k, v) :: fs

mutual
/-- Parse one JSON value; `fuel` bounds the recursion depth. -/
def parseVal : Nat → List Char → Option (JValue × List Char)
  | 0, _ => none
  | fuel + 1, cs =>
    match skipWs cs with
    | 'n' :: 'u' :: 'l' :: 'l' :: rest => some (.null, rest)
    | 't' :: 'r' :: 'u' :: 'e' :: rest => some (.bool true, rest)
    | 'f' :: 'a' :: 'l' :: 's' :: 'e' :: rest => some (.bool false, rest)
    | '"' :: rest =>
        match parseStringBody rest with
        | some (s, r) => some (.str s, r)
        | none => none
    | '[' :: rest =>
        (match skipWs rest with
         | ']' :: r2 => some (.arr [], r2)
         | cs2 => match parseArrItems fuel cs2 with
           | some (xs, r2) => some (.arr xs, r2)
           | none => none)
    | '-' :: rest =>
        (match takeDigits rest with
         | ([], _) => none
         | (ds, r) =>
             if (match r with
                 | c2 :: _ => c2 = '.' || c2 = 'e' || c2 = 'E'
                 | [] => false)
             then none
             else some (.num (-(digitsToNat ds : Int)), r))
    | c :: rest =>
        if c = lbrace then
          (match skipWs rest with
           | c2 :: r2 =>
               if c2 = rbrace then some (.obj [], r2)
               else match parseObjItems fuel (c2 :: r2) with
                 | some (fs, r3) => some (.obj fs, r3)
                 | none => none
           | [] => none)
        else if c.isDigit then
          (match takeDigits (c :: rest) with
           | (ds, r) =>
               if (match r with
                   | c2 :: _ => c2 = '.' || c2 = 'e' || c2 = 'E'
                   | [] => false)
               then none
               else some (.num (digitsToNat ds : Int), r))
        else none
    | [] => none

/-- Parse comma-separated array items up to the closing bracket. -/
def parseArrItems : Nat → List Char → Option (List JValue × List Char)
  | 0, _ => none
  | fuel + 1, cs =>
    match parseVal fuel cs with
    | some (v, r) =>
        (match skipWs r with
         | ',' :: r2 =>
             (match parseArrItems fuel r2 with
              | some (vs, r3) => some (v :: vs, r3)
              | none => none)
         | ']' :: r2 => some ([v], r2)
         | _ => none)
    | none => none

/-- Parse comma-separated `"key": value` object entries up to the closing
brace.  Entries are inserted with dict-assignment semantics, so a duplicate
key keeps its first position but the later value, as in Python. -/
def parseObjItems : Nat → List Char → Option (List (String × JValue) × List Char)
  | 0, _ => none
  | fuel + 1, cs =>
    match skipWs cs with
    | '"' :: rest =>
      match parseStringBody rest with
      | some (k, r) =>
        (match skipWs r with
         | ':' :: r2 =>
           match parseVal fuel r2 with
           | some (v, r3) =>
               (match skipWs r3 with
                | ',' :: r4 =>
                    (match parseObjItems fuel r4 with
                     | some (fs, r5) => some (setFieldEntry k v fs, r5)
                     | none => none)
                | c :: r4 =>
                    if c = rbrace then some ([(k, v)], r4) else none
                | [] => none)
           | none => none
         | _ => none)
      | none => none
    | _ => none
end

/-- `json.loads(s)`: parse a complete JSON document, requiring only
whitespace after the value. -/
def json_loads (s : String) : Option JValue :=
  match parseVal (4 * (s.length + 1)) s.toList with
  | some (v, rest) => if (skipWs rest).isEmpty then some v else none
  | none => none

/-! ## The review invoker
(`skills/code-review/codex-reviewer/scripts/codex_review.py`) -/

/-- Whitespace stripped by Python `str.strip()` (the ASCII part; exotic
unicode whitespace is outside the model). -/
def isPyWs (c : Char) : Bool :=
  c = ' ' || c = '\t' || c = '\n' || c = '\r' || c = '\x0b' || c = '\x0c'

/-- Drop leading Python whitespace. -/
def dropLeadingWs : List Char → List Char
  | c :: rest => if isPyWs c then dropLeadingWs rest else c :: rest
  | [] => []

/-- Python `s.strip()`: drop leading and trailing whitespace. -/
def pyStrip (s : String) : String :=
  ⟨(dropLeadingWs ((dropLeadingWs s.toList).reverse)).reverse⟩

/-- Python `s.split('\n')`. -/
def splitNl : List Char → List String
  | [] => [""]
  | c :: rest =>
      if c = '\n' then "" :: splitNl rest
      else
        match splitNl rest with
        | l :: ls => (String.singleton c ++ l) :: ls
        | [] => [String.singleton c]

/-- `CodexReviewer._parse_jsonl` (lines 98-107): strip the text, split on
newlines, and for each non-empty line append `json.loads(line)` to the
event list, skipping lines that fail to parse (`except ... continue`). -/
def parse_jsonl (jsonl_text : String) : List JValue :=
  (splitNl (pyStrip jsonl_text).toList).foldl
    (fun events line =>
      if line ≠ "" then
        match json_loads line with
        | some v => events ++ [v]
        | none => events
      else events) []

/-- The name CPython gives the type of a JSON-decoded value, as it appears
in `AttributeError` messages. -/
def pyTypeName : JValue → String
  | .null => "NoneType"
  | .bool _ => "bool"
  | .num _ => "int"
  | .str _ => "str"
  | .arr _ => "list"
  | .obj _ => "dict"

/-- The `AttributeError` message raised by `x.get(...)` on a non-dict `x`. -/
def noGetMsg (v : JValue) : String :=
  "'" ++ pyTypeName v ++ "' object has no attribute 'get'"

/-- Python's `d.get(k) == t` for a string literal `t`: true exactly when
the key is present with that string value (comparison with `None` or a
non-string is `False`, not an error). -/
def fieldIsStr (fs : List (String × JValue)) (k t : String) : Bool :=
  match lookupField fs k with
  | some (.str s) => s == t
  | _ => false

/-- The loop of `CodexReviewer._extract_summary` (lines 111-116), already
walking the reversed event list: the first event whose `type` is
`"item.completed"` and whose `item` (defaulting to `{}`) has `type`
`"agent_message"` yields `item.get("text")`; exhaustion yields `None`
(`.ok none`).  `event.get` on a non-dict event, or `item.get` on a non-dict
`item` value, raises `AttributeError` (`.error`). -/
def extractFromRev : List JValue → Except String (Option JValue)
  | [] => .ok none
  | e :: rest =>
    match e with
    | .obj fs =>
      if fieldIsStr fs "type" "item.completed" then
        match (lookupField fs "item").getD (.obj []) with
        | .obj ifs =>
          if fieldIsStr ifs "type" "agent_message" then
            .ok (some ((lookupField ifs "text").getD .null))
          else extractFromRev rest
        | v => .error (noGetMsg v)
      else extractFromRev rest
    | v => .error (noGetMsg v)

/-- `CodexReviewer._extract_summary(events)` (lines 109-116): scan the
events from the end (`for event in reversed(events)`). -/
def extract_summary (events : List JValue) : Except String (Option JValue) :=
  extractFromRev events.reverse

/-- The `timeout=300` argument of the `subprocess.run` call (line 58). -/
def codex_timeout_seconds : Nat := 300

/-- Outcome of the `subprocess.run` call inside `run_review`'s `try` block:
the subprocess ran to completion (any return code), the fixed timeout
expired (`subprocess.TimeoutExpired`), the executable was not found
(`FileNotFoundError`), or some other exception with message `msg` was
raised (`except Exception as e`). -/
inductive ProcOutcome where
  | completed (returncode : Int) (stdout : String) (stderr : String)
  | timedOut
  | notFound
  | raised (msg : String)

/-- The dict returned by `run_review`.  `events`/`summary` are `none` when
the corresponding key is absent from the dict; `summary = some none` models
the key being present with value `None`. -/
structure Response where
  success : Bool
  output : Option String
  error : Option String
  events : Option (List JValue)
  summary : Option (Option JValue)

/-- A `run_review` call's observable result: the returned dict and the
content written to `output_file`, if any write happened. -/
structure RunResult where
  response : Response
  fileWritten : Option String

/-- `CodexReviewer.run_review` (lines 53-96) as a function of the
subprocess outcome.  On completion the raw stdout is written to
`output_file` (when given) before the response dict is built; the dict has
`success = (returncode == 0)`, `output = stdout`, and `error = stderr` only
on a non-zero return code.  In structured-event mode (`self.json_output`)
the events and summary are added; an exception raised while extracting the
summary is caught by the final `except Exception` clause, which returns the
uniform failure dict (the file write has already happened by then).  The
timeout, not-found and other-exception branches return the three fixed
failure dicts and never reach the file write. -/
def run_review (json_output : Bool) (outcome : ProcOutcome)
    (output_file : Option String) : RunResult :=
  match outcome with
  | .completed rc out err =>
    let written : Option String :=
      match output_file with
      | some _ => some out
      | none => none
    if json_output then
      match extract_summary (parse_jsonl out) with
      | .ok summ =>
          ⟨⟨decide (rc = 0), some out,
            if rc ≠ 0 then some err else none,
            some (parse_jsonl out), some summ⟩, written⟩
      | .error msg =>
          ⟨⟨false, none, some ("Unexpected error: " ++ msg), none, none⟩, written⟩
    else
      ⟨⟨decide (rc = 0), some out,
        if rc ≠ 0 then some err else none, none, none⟩, written⟩
  | .timedOut =>
      ⟨⟨false, none, some "Codex review timed out after 5 minutes", none, none⟩, none⟩
  | .notFound =>
      ⟨⟨false, none, some "Codex CLI not found. Please install it first.", none, none⟩, none⟩
  | .raised msg =>
      ⟨⟨false, none, some ("Unexpected error: " ++ msg), none, none⟩, none⟩

/-! ## Specification-side characterizations
(stated from the spec's words, to be proved equal to what the code does) -/

/-- The tokens the dedup-append loop adds: the policy items in policy
order, keeping an item only when it is absent from the full list existing
at the moment it is examined (original entries plus tokens already added
this run). -/
def newTokens (allow : List JValue) : List JValue → List JValue
  | [] => []
  | x :: rest =>
      if memPy x allow then newTokens allow rest
      else x :: newTokens (allow ++ [x]) rest

/-- An event the summary scan can examine without raising: it is a JSON
object, and when its `type` is `"item.completed"` its `item` field
(defaulting to `{}`) is itself an object. -/
def wellShapedEvent : JValue → Bool
  | .obj fs =>
      if fieldIsStr fs "type" "item.completed" then
        match (lookupField fs "item").getD (.obj []) with
        | .obj _ => true
        | _ => false
      else true
  | _ => false

/-- The spec's "completed item of kind agent message": `type` is
`"item.completed"` and the record's `item` has `type` `"agent_message"`. -/
def isAgentMessageEvent : JValue → Bool
  | .obj fs =>
      fieldIsStr fs "type" "item.completed" &&
      (match (lookupField fs "item").getD (.obj []) with
       | .obj ifs => fieldIsStr ifs "type" "agent_message"
       | _ => false)
  | _ => false

/-- The text the spec's scan extracts from a qualifying record. -/
def eventText : JValue → Option JValue
  | .obj fs =>
      match (lookupField fs "item").getD (.obj []) with
      | .obj ifs => some ((lookupField ifs "text").getD .null)
      | _ => none
  | _ => none

/-- The summary per the spec's words: the text of the most recent record
(scanning from the end) that is a completed agent message; no such record
means no summary. -/
def specSummary (events : List JValue) : Option JValue :=
  (events.reverse.find? isAgentMessageEvent).bind eventText

/-! ## Lemmas about association lists -/

theorem lookupField_setField_self (fs : List (String × JValue)) (k : String)
    (v : JValue) : lookupField (setField fs k v) k = some v := by
  induction fs with
  | nil => simp [setField, lookupField]
  | cons kv rest ih =>
      obtain ⟨k', v'⟩ := kv
      by_cases h : k' = k <;> simp [setField, lookupField, h, ih]

theorem lookupField_setField_ne (fs : List (String × JValue)) (k k' : String)
    (v : JValue) (h : k' ≠ k) :
    lookupField (setField fs k v) k' = lookupField fs k' := by
  induction fs with
  | nil => simp [setField, lookupField, Ne.symm h]
  | cons kv rest ih =>
      obtain ⟨k0, v0⟩ := kv
      by_cases h0 : k0 = k
      · subst h0
        simp [setField, lookupField, Ne.symm h]
      · simp [setField, lookupField, h0, ih]

theorem setField_of_lookupField (fs : List (String × JValue)) (k : String)
    (v : JValue) (h : lookupField fs k = some v) : setField fs k v = fs := by
  induction fs with
  | nil => simp [lookupField] at h
  | cons kv rest ih =>
      obtain ⟨k0, v0⟩ := kv
      by_cases h0 : k0 = k
      · subst h0
        simp [lookupField] at h
        simp [setField, h]
      · simp [lookupField, h0] at h
        simp [setField, h0, ih h]

theorem lookupField_append_ne (fs : List (String × JValue)) (k k' : String)
    (v : JValue) (h : k' ≠ k) :
    lookupField (fs ++ [(k, v)]) k' = lookupField fs k' := by
  induction fs with
  | nil => simp [lookupField, Ne.symm h]
  | cons kv rest ih =>
      obtain ⟨k0, v0⟩ := kv
      by_cases h0 : k0 = k' <;> simp [lookupField, h0, ih]

theorem lookupField_append_self (fs : List (String × JValue)) (k : String)
    (v : JValue) (h : lookupField fs k = none) :
    lookupField (fs ++ [(k, v)]) k = some v := by
  induction fs with
  | nil => simp [lookupField]
  | cons kv rest ih =>
      obtain ⟨k0, v0⟩ := kv
      by_cases h0 : k0 = k
      · simp [lookupField, h0] at h
      · simp [lookupField, h0] at h ⊢
        exact ih h

/-! ## Lemmas about the dedup-append loop -/

theorem pyEq_refl_of_hashable (x : JValue) (h : hashable x = true) :
    pyEq x x = true := by
  cases x <;> simp_all [hashable, pyEq]

theorem memPy_append (x : JValue) (l l' : List JValue) :
    memPy x (l ++ l') = (memPy x l || memPy x l') := by
  simp [memPy, List.any_append]

theorem memPy_appendMissing_mono (x : JValue) (items : List JValue) :
    ∀ l, memPy x l = true → memPy x (appendMissing l items) = true := by
  induction items with
  | nil => intro l h; simpa [appendMissing] using h
  | cons it rest ih =>
      intro l h
      by_cases hm : memPy it l = true
      · simpa [appendMissing, hm] using ih l h
      · have : memPy x (l ++ [it]) = true := by
          simp [memPy_append, h]
        simpa [appendMissing, hm] using ih (l ++ [it]) this

theorem memPy_appendMissing_of_item (x : JValue) (hx : hashable x = true) :
    ∀ (items l : List JValue), x ∈ items →
      memPy x (appendMissing l items) = true := by
  intro items
  induction items with
  | nil => intro l h; cases h
  | cons it rest ih =>
      intro l hmem
      rcases List.mem_cons.mp hmem with rfl | hmem
      · by_cases hm : memPy x l = true
        · simpa [appendMissing, hm] using memPy_appendMissing_mono x rest l hm
        · have : memPy x (l ++ [x]) = true := by
            simp [memPy_append, memPy, pyEq_refl_of_hashable x hx]
          simpa [appendMissing, hm] using memPy_appendMissing_mono x rest _ this
      · by_cases hm : memPy it l = true <;>
          simpa [appendMissing, hm] using ih _ hmem

theorem appendMissing_of_all_mem (items : List JValue) :
    ∀ l, (∀ x ∈ items, memPy x l = true) → appendMissing l items = l := by
  induction items with
  | nil => intro l _; rfl
  | cons it rest ih =>
      intro l h
      have hit : memPy it l = true := h it (List.mem_cons_self it rest)
      have : appendMissing l (it :: rest) = appendMissing l rest := by
        simp [appendMissing, hit]
      rw [this]
      exact ih l fun x hx => h x (List.mem_cons_of_mem it hx)

theorem appendMissing_eq_append_newTokens (items : List JValue) :
    ∀ allow, appendMissing allow items = allow ++ newTokens allow items := by
  induction items with
  | nil => intro allow; simp [appendMissing, newTokens]
  | cons it rest ih =>
      intro allow
      by_cases hm : memPy it allow = true
      · have h1 : appendMissing allow (it :: rest) = appendMissing allow rest := by
          simp [appendMissing, hm]
        rw [h1, ih, newTokens, if_pos hm]
      · have h1 : appendMissing allow (it :: rest) = appendMissing (allow ++ [it]) rest := by
          simp [appendMissing, hm]
        rw [h1, ih, newTokens, if_neg hm, List.append_assoc]
        rfl

theorem newTokens_subset_and_absent (items : List JValue) :
    ∀ allow y, y ∈ newTokens allow items → y ∈ items ∧ memPy y allow = false := by
  induction items with
  | nil => intro allow y h; simp [newTokens] at h
  | cons it rest ih =>
      intro allow y h
      by_cases hm : memPy it allow = true
      · rw [newTokens, if_pos hm] at h
        obtain ⟨h1, h2⟩ := ih allow y h
        exact ⟨List.mem_cons_of_mem it h1, h2⟩
      · rw [newTokens, if_neg hm] at h
        rcases List.mem_cons.mp h with rfl | h
        · exact ⟨List.mem_cons_self y rest, by simpa using hm⟩
        · obtain ⟨h1, h2⟩ := ih _ y h
          rw [memPy_append] at h2
          exact ⟨List.mem_cons_of_mem it h1, (Bool.or_eq_false_iff.mp h2).1⟩

theorem newTokens_sublist (items : List JValue) :
    ∀ allow, List.Sublist (newTokens allow items) items := by
  induction items with
  | nil => intro allow; simp [newTokens]
  | cons it rest ih =>
      intro allow
      by_cases hm : memPy it allow = true
      · rw [newTokens, if_pos hm]
        exact List.Sublist.cons it (ih allow)
      · rw [newTokens, if_neg hm]
        exact List.Sublist.cons₂ it (ih (allow ++ [it]))

theorem newTokens_pairwise (items : List JValue) :
    ∀ allow, List.Pairwise (fun a b => pyEq a b = false) (newTokens allow items) := by
  induction items with
  | nil => intro allow; simp [newTokens]
  | cons it rest ih =>
      intro allow
      by_cases hm : memPy it allow = true
      · rw [newTokens, if_pos hm]; exact ih allow
      · rw [newTokens, if_neg hm]
        refine List.Pairwise.cons ?_ (ih (allow ++ [it]))
        intro y hy
        have h2 := (newTokens_subset_and_absent rest _ y hy).2
        rw [memPy_append] at h2
        have h5 := (Bool.or_eq_false_iff.mp h2).2
        simpa [memPy] using h5

theorem appendMissing_all_hashable (items : List JValue)
    (hi : items.all hashable = true) :
    ∀ allow, allow.all hashable = true →
      (appendMissing allow items).all hashable = true := by
  induction items with
  | nil => intro allow h; simpa [appendMissing] using h
  | cons it rest ihh =>
      intro allow h
      simp only [List.all_cons, Bool.and_eq_true] at hi
      by_cases hm : memPy it allow = true
      · simpa [appendMissing, hm] using ihh hi.2 allow h
      · have hall : (allow ++ [it]).all hashable = true := by
          simp [List.all_append, h, hi.1]
        simpa [appendMissing, hm] using ihh hi.2 _ hall

/-! ## Idempotence of the two merge bodies -/

theorem setTrust_idem (x : JValue) : setTrust (setTrust x) = setTrust x := by
  cases x with
  | obj fs =>
      simp only [setTrust]
      rw [setField_of_lookupField _ _ _ (lookupField_setField_self fs "trust" (.bool true))]
  | null => rfl
  | bool b => rfl
  | num n => rfl
  | str s => rfl
  | arr xs => rfl

theorem mergeClaude_idem (s policy v : JValue) (h : mergeClaude s policy = some v) :
    mergeClaude v policy = some v := by
  unfold mergeClaude at h
  split at h
  case h_2 => exact absurd h (by simp)
  case h_1 sfs =>
  split at h
  case h_2 => exact absurd h (by simp)
  case h_1 pfs sfs1 heq1 =>
  split at h
  case h_2 => exact absurd h (by simp)
  case h_1 allow pfs1 heq2 =>
  split at h
  case h_2 => exact absurd h (by simp)
  case h_1 items heq3 =>
  split at h
  case isFalse => exact absurd h (by simp)
  case isTrue hguard =>
  rw [Option.some_inj] at h
  subst h
  obtain ⟨hha, hhi⟩ : allow.all hashable = true ∧ items.all hashable = true := by
    simpa using hguard
  have hhx : ∀ x ∈ items, hashable x = true := fun x hx =>
    List.all_eq_true.mp hhi x hx
  have hmem : ∀ x ∈ items, memPy x (appendMissing allow items) = true := fun x hx =>
    memPy_appendMissing_of_item x (hhx x hx) items allow hx
  have hidem : appendMissing (appendMissing allow items) items = appendMissing allow items :=
    appendMissing_of_all_mem items _ hmem
  have hall : (appendMissing allow items).all hashable = true :=
    appendMissing_all_hashable items hhi allow hha
  have hT := lookupField_setField_self pfs1 "allow" (.arr (appendMissing allow items))
  have hS := lookupField_setField_self sfs1 "permissions"
    (.obj (setField pfs1 "allow" (.arr (appendMissing allow items))))
  simp only [mergeClaude, setdefault, hS, hT, heq3, hidem, hall, hhi,
    Bool.and_self, if_true]
  rw [setField_of_lookupField _ _ _ hT, setField_of_lookupField _ _ _ hS]

theorem mergeGemini_idem (s policy v : JValue) (h : mergeGemini s policy = some v) :
    mergeGemini v policy = some v := by
  unfold mergeGemini at h
  split at h
  case h_2 => exact absurd h (by simp)
  case h_1 pfs =>
  split at h
  case isFalse hf =>
      rw [Option.some_inj] at h
      subst h
      simp [mergeGemini, hf]
  case isTrue hf =>
  split at h
  case h_2 => exact absurd h (by simp)
  case h_1 sfs =>
  split at h
  case h_1 hms =>
      rw [Option.some_inj] at h
      subst h
      simp [mergeGemini, hf, hms]
  case h_3 => exact absurd h (by simp)
  case h_2 ms hms =>
  rw [Option.some_inj] at h
  subst h
  have hS := lookupField_setField_self sfs "mcpServers"
    (.obj (ms.map fun kv => (kv.1, setTrust kv.2)))
  have hmap : ((ms.map fun kv => (kv.1, setTrust kv.2)).map
      fun kv => (kv.1, setTrust kv.2)) = ms.map fun kv => (kv.1, setTrust kv.2) := by
    rw [List.map_map]
    refine List.map_congr_left ?_
    intro kv _
    simp [Function.comp, setTrust_idem]
  simp only [mergeGemini, hf, if_true, hS, hmap]
  rw [setField_of_lookupField _ _ _ hS]

/-- Claim C1: applying the policy merge (`ensure_claude_permissions`
followed by `ensure_gemini_mcp_trust`) a second time to the files produced
by a successful first application succeeds and yields the same files, and
in particular byte-identical serialized content: the merge is idempotent. -/
theorem merge_idempotent (f g : MFile) (cp gp : JValue) (f1 g1 : MFile)
    (hc : ensure_claude_permissions f cp = some f1)
    (hg : ensure_gemini_mcp_trust g gp = some g1) :
    ensure_claude_permissions f1 cp = some f1 ∧
    ensure_gemini_mcp_trust g1 gp = some g1 ∧
    (ensure_claude_permissions f1 cp).bind fileBytes = fileBytes f1 ∧
    (ensure_gemini_mcp_trust g1 gp).bind fileBytes = fileBytes g1 := by
  unfold ensure_claude_permissions at hc
  unfold ensure_gemini_mcp_trust at hg
  rcases hmc : mergeClaude (read_json f (.obj [])) cp with _ | vc
  · rw [hmc] at hc; exact absurd hc (by simp)
  rcases hmg : mergeGemini (read_json g (.obj [])) gp with _ | vg
  · rw [hmg] at hg; exact absurd hg (by simp)
  rw [hmc, Option.map_some', Option.some_inj] at hc
  rw [hmg, Option.map_some', Option.some_inj] at hg
  subst hc
  subst hg
  have h1 : read_json (write_json vc) (.obj []) = vc := rfl
  have h2 : read_json (write_json vg) (.obj []) = vg := rfl
  have hic := mergeClaude_idem _ _ _ hmc
  have hig := mergeGemini_idem _ _ _ hmg
  have hc2 : ensure_claude_permissions (write_json vc) cp = some (write_json vc) := by
    unfold ensure_claude_permissions
    rw [h1, hic, Option.map_some']
  have hg2 : ensure_gemini_mcp_trust (write_json vg) gp = some (write_json vg) := by
    unfold ensure_gemini_mcp_trust
    rw [h2, hig, Option.map_some']
  exact ⟨hc2, hg2, by rw [hc2]; rfl, by rw [hg2]; rfl⟩

/-- Witness for C1 at a concrete policy and settings pair. -/
theorem merge_idempotent_witness :
    ensure_claude_permissions (write_json (.obj [("permissions",
        .obj [("allow", .arr [.str "Bash(ls)"])])]))
      (.obj [("permissionsAllow", .arr [.str "Bash(ls)"])])
      = some (write_json (.obj [("permissions",
        .obj [("allow", .arr [.str "Bash(ls)"])])])) ∧
    ensure_gemini_mcp_trust (write_json (.obj [("mcpServers",
        .obj [("a", .obj [("url", .str "x"), ("trust", .bool true)])])]))
      (.obj [("forceMcpTrust", .bool true)])
      = some (write_json (.obj [("mcpServers",
        .obj [("a", .obj [("url", .str "x"), ("trust", .bool true)])])])) ∧
    (ensure_claude_permissions (write_json (.obj [("permissions",
        .obj [("allow", .arr [.str "Bash(ls)"])])]))
      (.obj [("permissionsAllow", .arr [.str "Bash(ls)"])])).bind fileBytes
      = fileBytes (write_json (.obj [("permissions",
        .obj [("allow", .arr [.str "Bash(ls)"])])])) ∧
    (ensure_gemini_mcp_trust (write_json (.obj [("mcpServers",
        .obj [("a", .obj [("url", .str "x"), ("trust", .bool true)])])]))
      (.obj [("forceMcpTrust", .bool true)])).bind fileBytes
      = fileBytes (write_json (.obj [("mcpServers",
        .obj [("a", .obj [("url", .str "x"), ("trust", .bool true)])])])) :=
  merge_idempotent ⟨none, false⟩
    ⟨some (.obj [("mcpServers", .obj [("a", .obj [("url", .str "x")])])]), true⟩
    (.obj [("permissionsAllow", .arr [.str "Bash(ls)"])])
    (.obj [("forceMcpTrust", .bool true)]) _ _ rfl rfl

/-- Claim C2: on a settings document with an existing allow-list,
`ensure_claude_permissions` produces `allow ++ newTokens allow items`:
the pre-existing entries stay in place (and in relative order) as a prefix,
the appended tokens are an order-preserving subselection of the policy list
(appended in policy order), each appended token was absent from the full
existing list, every policy token is present afterwards (tested against the
full list, not just tokens added this run), and no two appended tokens are
equal, so no token added this run appears twice. -/
theorem claude_allow_merge (sfs pfs : List (String × JValue))
    (allow items : List JValue) (cp : JValue)
    (hp : lookupField sfs "permissions" = some (.obj pfs))
    (ha : lookupField pfs "allow" = some (.arr allow))
    (hi : policyItems cp = some items)
    (hha : allow.all hashable = true) (hhi : items.all hashable = true) :
    mergeClaude (.obj sfs) cp = some (.obj (setField sfs "permissions"
      (.obj (setField pfs "allow" (.arr (allow ++ newTokens allow items)))))) ∧
    List.Sublist (newTokens allow items) items ∧
    (∀ y ∈ newTokens allow items, y ∈ items ∧ memPy y allow = false) ∧
    (∀ x ∈ items, memPy x (allow ++ newTokens allow items) = true) ∧
    List.Pairwise (fun a b => pyEq a b = false) (newTokens allow items) := by
  refine ⟨?_, newTokens_sublist items allow,
    fun y hy => newTokens_subset_and_absent items allow y hy, ?_, newTokens_pairwise items allow⟩
  · simp [mergeClaude, setdefault, hp, ha, hi, hha, hhi,
      appendMissing_eq_append_newTokens]
  · intro x hx
    rw [← appendMissing_eq_append_newTokens]
    exact memPy_appendMissing_of_item x (List.all_eq_true.mp hhi x hx) items allow hx

/-- Witness for C2: existing allow-list `["a", "b"]`, policy list
`["b", "c", "c"]`; only `"c"` is appended, once. -/
theorem claude_allow_merge_witness :
    mergeClaude (.obj [("permissions", .obj [("allow",
        .arr [.str "a", .str "b"])])])
      (.obj [("permissionsAllow", .arr [.str "b", .str "c", .str "c"])])
      = some (.obj (setField [("permissions", .obj [("allow",
          .arr [.str "a", .str "b"])])] "permissions"
        (.obj (setField [("allow", .arr [.str "a", .str "b"])] "allow"
          (.arr ([.str "a", .str "b"] ++
            newTokens [.str "a", .str "b"] [.str "b", .str "c", .str "c"])))))) ∧
    List.Sublist (newTokens [.str "a", .str "b"] [.str "b", .str "c", .str "c"])
      [.str "b", .str "c", .str "c"] ∧
    (∀ y ∈ newTokens [.str "a", .str "b"] [.str "b", .str "c", .str "c"],
      y ∈ [JValue.str "b", .str "c", .str "c"] ∧
        memPy y [.str "a", .str "b"] = false) ∧
    (∀ x ∈ [JValue.str "b", .str "c", .str "c"],
      memPy x ([.str "a", .str "b"] ++
        newTokens [.str "a", .str "b"] [.str "b", .str "c", .str "c"]) = true) ∧
    List.Pairwise (fun a b => pyEq a b = false)
      (newTokens [.str "a", .str "b"] [.str "b", .str "c", .str "c"]) :=
  claude_allow_merge [("permissions", .obj [("allow", .arr [.str "a", .str "b"])])]
    [("allow", .arr [.str "a", .str "b"])] [.str "a", .str "b"]
    [.str "b", .str "c", .str "c"]
    (.obj [("permissionsAllow", .arr [.str "b", .str "c", .str "c"])])
    rfl rfl rfl rfl rfl

theorem setdefault_cases (fs : List (String × JValue)) (k : String) (d v : JValue)
    (fs' : List (String × JValue)) (h : setdefault fs k d = (v, fs')) :
    (lookupField fs k = some v ∧ fs' = fs) ∨
    (lookupField fs k = none ∧ v = d ∧ fs' = fs ++ [(k, d)]) := by
  unfold setdefault at h
  split at h
  case h_1 w hw =>
      rw [Prod.mk.injEq] at h
      exact Or.inl ⟨by rw [hw, h.1], h.2.symm⟩
  case h_2 hw =>
      rw [Prod.mk.injEq] at h
      exact Or.inr ⟨hw, h.1.symm, h.2.symm⟩

theorem forall2_map_self {R : (String × JValue) → (String × JValue) → Prop}
    (f : (String × JValue) → (String × JValue)) (h : ∀ kv, R kv (f kv)) :
    ∀ ms : List (String × JValue), List.Forall₂ R ms (ms.map f) := by
  intro ms
  induction ms with
  | nil => constructor
  | cons kv rest ih => exact List.Forall₂.cons (h kv) ih

theorem forall2_self {R : (String × JValue) → (String × JValue) → Prop}
    (h : ∀ kv, R kv kv) :
    ∀ ms : List (String × JValue), List.Forall₂ R ms ms := by
  intro ms
  induction ms with
  | nil => constructor
  | cons kv rest ih => exact List.Forall₂.cons (h kv) ih

/-- Claim C4: the merge routines change at most the `permissions.allow`
list of the Claude settings and the `trust` field of mapping-valued
`mcpServers` entries of the Gemini settings; every other field of either
document is preserved untouched (same lookup result), and non-mapping
server entries are carried over unchanged. -/
theorem merge_frame (csfs gsfs : List (String × JValue)) (cp gp s' g' : JValue)
    (hc : mergeClaude (.obj csfs) cp = some s')
    (hg : mergeGemini (.obj gsfs) gp = some g') :
    (∃ sfs', s' = .obj sfs'
      ∧ (∀ k, k ≠ "permissions" → lookupField sfs' k = lookupField csfs k)
      ∧ ∀ pfs0 pfs', lookupField csfs "permissions" = some (.obj pfs0) →
          lookupField sfs' "permissions" = some (.obj pfs') →
          ∀ k, k ≠ "allow" → lookupField pfs' k = lookupField pfs0 k)
    ∧ (∃ gfs', g' = .obj gfs'
      ∧ (∀ k, k ≠ "mcpServers" → lookupField gfs' k = lookupField gsfs k)
      ∧ ∀ ms0 ms', lookupField gsfs "mcpServers" = some (.obj ms0) →
          lookupField gfs' "mcpServers" = some (.obj ms') →
          List.Forall₂ (fun kv kv' => kv'.1 = kv.1
            ∧ (∀ cfs, kv.2 = .obj cfs → ∃ cfs', kv'.2 = .obj cfs'
                ∧ ∀ k, k ≠ "trust" → lookupField cfs' k = lookupField cfs k)
            ∧ ((∀ cfs, kv.2 ≠ .obj cfs) → kv'.2 = kv.2)) ms0 ms') := by
  constructor
  · simp only [mergeClaude] at hc
    split at hc
    case h_2 => exact absurd hc (by simp)
    case h_1 pfs sfs1 heq1 =>
    split at hc
    case h_2 => exact absurd hc (by simp)
    case h_1 allow pfs1 heq2 =>
    split at hc
    case h_2 => exact absurd hc (by simp)
    case h_1 items heq3 =>
    split at hc
    case isFalse => exact absurd hc (by simp)
    case isTrue hguard =>
    rw [Option.some_inj] at hc
    subst hc
    refine ⟨_, rfl, ?_, ?_⟩
    · intro k hk
      rw [lookupField_setField_ne _ _ _ _ hk]
      rcases setdefault_cases csfs "permissions" (.obj []) _ _ heq1 with
        ⟨_, rfl⟩ | ⟨_, _, rfl⟩
      · rfl
      · exact lookupField_append_ne csfs "permissions" k (.obj []) hk
    · intro pfs0 pfs' hp0 hp'
      rw [lookupField_setField_self] at hp'
      rw [Option.some_inj] at hp'
      have hp'' : setField pfs1 "allow" (.arr (appendMissing allow items)) = pfs' := by
        injection hp'
      subst hp''
      rcases setdefault_cases csfs "permissions" (.obj []) _ _ heq1 with
        ⟨hl, rfl⟩ | ⟨hl, _, rfl⟩
      · rw [hl, Option.some_inj] at hp0
        have hpe : pfs = pfs0 := by injection hp0
        subst hpe
        intro k hk
        rw [lookupField_setField_ne _ _ _ _ hk]
        rcases setdefault_cases pfs "allow" (.arr []) _ _ heq2 with
          ⟨_, rfl⟩ | ⟨_, _, rfl⟩
        · rfl
        · exact lookupField_append_ne pfs "allow" k (.arr []) hk
      · rw [hl] at hp0
        exact absurd hp0 (by simp)
  · simp only [mergeGemini] at hg
    split at hg
    case h_2 => exact absurd hg (by simp)
    case h_1 pfs =>
    split at hg
    case isFalse hf =>
        rw [Option.some_inj] at hg
        subst hg
        refine ⟨gsfs, rfl, fun k _ => rfl, ?_⟩
        intro ms0 ms' hm0 hm'
        rw [hm0, Option.some_inj] at hm'
        have hme : ms0 = ms' := by injection hm'
        subst hme
        exact forall2_self
          (fun kv => ⟨rfl, fun cfs hc2 => ⟨cfs, hc2, fun k _ => rfl⟩, fun _ => rfl⟩) ms0
    case isTrue hf =>
    split at hg
    case h_1 hms =>
        rw [Option.some_inj] at hg
        subst hg
        refine ⟨gsfs, rfl, fun k _ => rfl, ?_⟩
        intro ms0 ms' hm0 _
        rw [hms] at hm0
        exact absurd hm0 (by simp)
    case h_3 => exact absurd hg (by simp)
    case h_2 ms hms =>
    rw [Option.some_inj] at hg
    subst hg
    refine ⟨_, rfl, ?_, ?_⟩
    · intro k hk
      rw [lookupField_setField_ne _ _ _ _ hk]
    · intro ms0 ms' hm0 hm'
      rw [hms, Option.some_inj] at hm0
      have hme : ms = ms0 := by injection hm0
      subst hme
      rw [lookupField_setField_self, Option.some_inj] at hm'
      have hme' : (ms.map fun kv => (kv.1, setTrust kv.2)) = ms' := by injection hm'
      subst hme'
      refine forall2_map_self _ ?_ ms
      intro kv
      refine ⟨rfl, ?_, ?_⟩
      · intro cfs hcfs
        refine ⟨setField cfs "trust" (.bool true), ?_,
          fun k hk => lookupField_setField_ne cfs "trust" k (.bool true) hk⟩
        show setTrust kv.2 = _
        rw [hcfs, setTrust]
      · intro hne
        show setTrust kv.2 = kv.2
        cases h2 : kv.2 with
        | obj cfs => exact absurd h2 (hne cfs)
        | null => rfl
        | bool bb => rfl
        | num n => rfl
        | str s => rfl
        | arr xs => rfl

/-- Witness for C4: concrete documents with extra fields around the
modified ones. -/
theorem merge_frame_witness :
    (∃ sfs', (JValue.obj (setField [("permissions", .obj [("allow", .arr []),
          ("defaultMode", .str "ask")]), ("extra", .num 7)] "permissions"
          (.obj (setField [("allow", .arr []), ("defaultMode", .str "ask")] "allow"
            (.arr (appendMissing [] [JValue.str "tok"]))))) : JValue) = .obj sfs'
      ∧ (∀ k, k ≠ "permissions" →
          lookupField sfs' k = lookupField [("permissions", .obj [("allow", .arr []),
            ("defaultMode", .str "ask")]), ("extra", .num 7)] k)
      ∧ ∀ pfs0 pfs', lookupField [("permissions", .obj [("allow", .arr []),
            ("defaultMode", .str "ask")]), ("extra", .num 7)] "permissions"
            = some (.obj pfs0) →
          lookupField sfs' "permissions" = some (.obj pfs') →
          ∀ k, k ≠ "allow" → lookupField pfs' k = lookupField pfs0 k)
    ∧ (∃ gfs', (JValue.obj (setField [("theme", .str "dark"), ("mcpServers",
          .obj [("a", .obj [("url", .str "x")]), ("b", .str "nope")])] "mcpServers"
          (.obj ([("a", JValue.obj [("url", .str "x")]), ("b", .str "nope")].map
            fun kv => (kv.1, setTrust kv.2)))) : JValue) = .obj gfs'
      ∧ (∀ k, k ≠ "mcpServers" →
          lookupField gfs' k = lookupField [("theme", .str "dark"), ("mcpServers",
            .obj [("a", .obj [("url", .str "x")]), ("b", .str "nope")])] k)
      ∧ ∀ ms0 ms', lookupField [("theme", .str "dark"), ("mcpServers",
            .obj [("a", .obj [("url", .str "x")]), ("b", .str "nope")])] "mcpServers"
            = some (.obj ms0) →
          lookupField gfs' "mcpServers" = some (.obj ms') →
          List.Forall₂ (fun kv kv' => kv'.1 = kv.1
            ∧ (∀ cfs, kv.2 = .obj cfs → ∃ cfs', kv'.2 = .obj cfs'
                ∧ ∀ k, k ≠ "trust" → lookupField cfs' k = lookupField cfs k)
            ∧ ((∀ cfs, kv.2 ≠ .obj cfs) → kv'.2 = kv.2)) ms0 ms') :=
  merge_frame [("permissions", .obj [("allow", .arr []), ("defaultMode", .str "ask")]),
      ("extra", .num 7)]
    [("theme", .str "dark"), ("mcpServers",
      .obj [("a", .obj [("url", .str "x")]), ("b", .str "nope")])]
    (.obj [("permissionsAllow", .arr [.str "tok"])])
    (.obj [("forceMcpTrust", .bool true)]) _ _ rfl rfl

/-- Claim C3: with `forceMcpTrust` truthy, `ensure_gemini_mcp_trust` maps
`setTrust` over every entry of the `mcpServers` mapping without raising:
every mapping-valued entry gets `trust = true` set, and every non-mapping
entry is carried over untouched. -/
theorem gemini_trust_propagation (sfs gfs : List (String × JValue))
    (ms : List (String × JValue)) (b : Bool)
    (hf : truthy ((lookupField gfs "forceMcpTrust").getD .null) = true)
    (hms : lookupField sfs "mcpServers" = some (.obj ms)) :
    ensure_gemini_mcp_trust ⟨some (.obj sfs), b⟩ (.obj gfs)
      = some (write_json (.obj (setField sfs "mcpServers"
          (.obj (ms.map fun kv => (kv.1, setTrust kv.2)))))) ∧
    (∀ kv ∈ ms, ∀ cfs, kv.2 = .obj cfs →
      (kv.1, JValue.obj (setField cfs "trust" (.bool true)))
        ∈ ms.map fun kv => (kv.1, setTrust kv.2)) ∧
    (∀ kv ∈ ms, (∀ cfs, kv.2 ≠ .obj cfs) →
      kv ∈ ms.map fun kv => (kv.1, setTrust kv.2)) := by
  refine ⟨?_, ?_, ?_⟩
  · simp [ensure_gemini_mcp_trust, read_json, mergeGemini, hf, hms]
  · intro kv hkv cfs hcfs
    have : (kv.1, setTrust kv.2) ∈ ms.map fun kv => (kv.1, setTrust kv.2) :=
      List.mem_map_of_mem _ hkv
    rwa [hcfs, setTrust] at this
  · intro kv hkv hne
    have : (kv.1, setTrust kv.2) ∈ ms.map fun kv => (kv.1, setTrust kv.2) :=
      List.mem_map_of_mem _ hkv
    have hs : setTrust kv.2 = kv.2 := by
      cases h2 : kv.2 with
      | obj cfs => exact absurd h2 (hne cfs)
      | null => rfl
      | bool bb => rfl
      | num n => rfl
      | str s => rfl
      | arr xs => rfl
    rwa [hs] at this

/-- Witness for C3 at the spec's example `{a: {url: "x"}, b: "not-a-map"}`:
`a` gains `trust = true`, `b` is untouched. -/
theorem gemini_trust_propagation_witness :
    ensure_gemini_mcp_trust ⟨some (.obj [("mcpServers",
        .obj [("a", .obj [("url", .str "x")]), ("b", .str "not-a-map")])]), true⟩
      (.obj [("forceMcpTrust", .bool true)])
      = some (write_json (.obj (setField [("mcpServers",
          .obj [("a", .obj [("url", .str "x")]), ("b", .str "not-a-map")])]
          "mcpServers"
          (.obj ([("a", JValue.obj [("url", .str "x")]), ("b", .str "not-a-map")].map
            fun kv => (kv.1, setTrust kv.2)))))) ∧
    (∀ kv ∈ [("a", JValue.obj [("url", .str "x")]), ("b", .str "not-a-map")],
      ∀ cfs, kv.2 = .obj cfs →
        (kv.1, JValue.obj (setField cfs "trust" (.bool true)))
          ∈ [("a", JValue.obj [("url", .str "x")]), ("b", .str "not-a-map")].map
              fun kv => (kv.1, setTrust kv.2)) ∧
    (∀ kv ∈ [("a", JValue.obj [("url", .str "x")]), ("b", .str "not-a-map")],
      (∀ cfs, kv.2 ≠ .obj cfs) →
        kv ∈ [("a", JValue.obj [("url", .str "x")]), ("b", .str "not-a-map")].map
              fun kv => (kv.1, setTrust kv.2)) :=
  gemini_trust_propagation [("mcpServers",
      .obj [("a", .obj [("url", .str "x")]), ("b", .str "not-a-map")])]
    [("forceMcpTrust", .bool true)]
    [("a", .obj [("url", .str "x")]), ("b", .str "not-a-map")] true rfl rfl

/-- Claim C5: a missing target settings file behaves exactly like an empty
mapping as the merge base: both routines give the same result on a missing
file as on a file holding `{}` (no error arises from the absence itself),
the written result is exactly the merge of the policy into the empty
mapping, and the write step creates the parent directories. -/
theorem missing_file_as_empty (cp gp : JValue) (b b' : Bool) :
    ensure_claude_permissions ⟨none, b⟩ cp
      = ensure_claude_permissions ⟨some (.obj []), b'⟩ cp ∧
    ensure_gemini_mcp_trust ⟨none, b⟩ gp
      = ensure_gemini_mcp_trust ⟨some (.obj []), b'⟩ gp ∧
    ensure_claude_permissions ⟨none, b⟩ cp
      = (mergeClaude (.obj []) cp).map write_json ∧
    ensure_gemini_mcp_trust ⟨none, b⟩ gp
      = (mergeGemini (.obj []) gp).map write_json ∧
    (∀ v : JValue, (write_json v).dirExists = true ∧ (write_json v).data = some v) :=
  ⟨rfl, rfl, rfl, rfl, fun _ => ⟨rfl, rfl⟩⟩

/-- Claim C6: when the Gemini policy's `forceMcpTrust` is false or absent
(falsy), `ensure_gemini_mcp_trust` performs no mutation of the settings
content but still rewrites the target file: the written file holds exactly
the loaded document, serialized pretty-printed with a trailing newline. -/
theorem gemini_rewrite_without_mutation (gfs : List (String × JValue))
    (s : JValue) (b : Bool)
    (hf : truthy ((lookupField gfs "forceMcpTrust").getD .null) = false) :
    ensure_gemini_mcp_trust ⟨some s, b⟩ (.obj gfs) = some ⟨some s, true⟩ ∧
    (ensure_gemini_mcp_trust ⟨some s, b⟩ (.obj gfs)).bind fileBytes
      = some (serialize 0 s ++ "\n") := by
  have h1 : ensure_gemini_mcp_trust ⟨some s, b⟩ (.obj gfs) = some ⟨some s, true⟩ := by
    simp [ensure_gemini_mcp_trust, read_json, mergeGemini, hf, write_json]
  exact ⟨h1, by rw [h1]; rfl⟩

/-- Witness for C6 with an absent flag and a settings document carrying an
`mcpServers` map that must stay untouched. -/
theorem gemini_rewrite_without_mutation_witness :
    ensure_gemini_mcp_trust
        ⟨some (.obj [("mcpServers", .obj [("a", .obj [("url", .str "x")])])]), false⟩
        (.obj [])
      = some ⟨some (.obj [("mcpServers", .obj [("a", .obj [("url", .str "x")])])]), true⟩ ∧
    (ensure_gemini_mcp_trust
        ⟨some (.obj [("mcpServers", .obj [("a", .obj [("url", .str "x")])])]), false⟩
        (.obj [])).bind fileBytes
      = some (serialize 0 (.obj [("mcpServers", .obj [("a", .obj [("url", .str "x")])])])
          ++ "\n") :=
  gemini_rewrite_without_mutation []
    (.obj [("mcpServers", .obj [("a", .obj [("url", .str "x")])])]) false rfl

/-! ## Lemmas for the review invoker -/

theorem parse_jsonl_foldl_eq (g : String → Option JValue)
    (step : List JValue → String → List JValue)
    (hstep : ∀ acc line, step acc line = acc ++ (g line).toList) :
    ∀ (lines : List String) (acc : List JValue),
      lines.foldl step acc = acc ++ lines.filterMap g := by
  intro lines
  induction lines with
  | nil => intro acc; simp
  | cons l rest ih =>
      intro acc
      rw [List.foldl_cons, ih, hstep, List.filterMap_cons]
      cases hg : g l <;> simp

theorem extractFromRev_wellShaped (evs : List JValue)
    (h : ∀ e ∈ evs, wellShapedEvent e = true) :
    extractFromRev evs = .ok ((evs.find? isAgentMessageEvent).bind eventText) := by
  induction evs with
  | nil => rfl
  | cons e rest ih =>
      have he := h e (List.mem_cons_self e rest)
      have hrest : ∀ x ∈ rest, wellShapedEvent x = true :=
        fun x hx => h x (List.mem_cons_of_mem e hx)
      cases e with
      | obj fs =>
          by_cases ht : fieldIsStr fs "type" "item.completed" = true
          · cases hitem : (lookupField fs "item").getD (.obj []) with
            | obj ifs =>
                by_cases ha : fieldIsStr ifs "type" "agent_message" = true
                · simp [extractFromRev, ht, hitem, ha, List.find?,
                    isAgentMessageEvent, eventText]
                · simp [extractFromRev, ht, hitem, ha, List.find?,
                    isAgentMessageEvent, ih hrest]
            | null => simp [wellShapedEvent, ht, hitem] at he
            | bool bb => simp [wellShapedEvent, ht, hitem] at he
            | num n => simp [wellShapedEvent, ht, hitem] at he
            | str s => simp [wellShapedEvent, ht, hitem] at he
            | arr xs => simp [wellShapedEvent, ht, hitem] at he
          · simp [extractFromRev, ht, List.find?, isAgentMessageEvent, ih hrest]
      | null => simp [wellShapedEvent] at he
      | bool bb => simp [wellShapedEvent] at he
      | num n => simp [wellShapedEvent] at he
      | str s => simp [wellShapedEvent] at he
      | arr xs => simp [wellShapedEvent] at he

/-- Claim C7: `run_review` never propagates an
unhandled fault.  A timeout yields a failure with no raw output and the
timeout message; a missing executable yields the "not installed" failure;
any other exception raised by the invocation is caught and surfaced as a
failure carrying its message text (including an exception raised while
extracting the summary from completed output); and the subprocess timeout
bound is the fixed 300 seconds. -/
theorem run_review_fault_handling (j : Bool) (of : Option String) (m : String) :
    run_review j .timedOut of
      = ⟨⟨false, none, some "Codex review timed out after 5 minutes", none, none⟩, none⟩ ∧
    run_review j .notFound of
      = ⟨⟨false, none, some "Codex CLI not found. Please install it first.", none, none⟩, none⟩ ∧
    run_review j (.raised m) of
      = ⟨⟨false, none, some ("Unexpected error: " ++ m), none, none⟩, none⟩ ∧
    codex_timeout_seconds = 300 ∧
    (∀ (rc : Int) (out err : String),
      extract_summary (parse_jsonl out) = .error m →
      (run_review true (.completed rc out err) of).response
        = ⟨false, none, some ("Unexpected error: " ++ m), none, none⟩) := by
  refine ⟨rfl, rfl, rfl, rfl, ?_⟩
  intro rc out err hm
  simp [run_review, hm]

/-- Witness for C7, exercising the summary-extraction exception path on
the stdout `"5"` (a valid JSON line that is not an object). -/
theorem run_review_fault_handling_witness :
    (run_review true (.completed 0 "5" "stderr") none).response
      = ⟨false, none,
          some ("Unexpected error: " ++ "'int' object has no attribute 'get'"),
          none, none⟩ :=
  (run_review_fault_handling true none "'int' object has no attribute 'get'").2.2.2.2
    0 "5" "stderr" rfl

/-- Counterexample to C8 as stated: on the standard-output text `"5"` the
parsed record list is `[5]`, which contains no completed agent message,
yet the summary extraction does not yield an absent summary — it raises
`AttributeError` (`'int' object has no attribute 'get'`), which
`run_review` converts into a failure result with no summary field at all. -/
theorem summary_extraction_counterexample :
    parse_jsonl "5" = [.num 5] ∧
    extract_summary [.num 5] = .error "'int' object has no attribute 'get'" ∧
    (run_review true (.completed 0 "5" "") none).response
      = ⟨false, none, some "Unexpected error: 'int' object has no attribute 'get'",
          none, none⟩ :=
  ⟨rfl, rfl, rfl⟩

/-- Claim C8 as amended: parsing treats the text as newline-delimited JSON
records, skipping lines that fail to parse; and provided every parsed
record is well shaped (a JSON object whose `item` field is an object
whenever its `type` is `"item.completed"`), the extracted summary is that
of the spec's scan — the text of the most recent completed agent message,
or absent (`None`, without error) when no such record exists; `run_review`
then carries exactly these events and this summary.  (Without the
well-shapedness proviso a parsed non-object record raises `AttributeError`,
which `run_review` surfaces as a failure result.) -/
theorem summary_extraction_amended :
    (∀ text : String, parse_jsonl text
      = (splitNl (pyStrip text).toList).filterMap
          (fun line => if line = "" then none else json_loads line)) ∧
    (∀ events : List JValue, (∀ e ∈ events, wellShapedEvent e = true) →
      extract_summary events = .ok (specSummary events)) ∧
    (∀ (rc : Int) (out err : String) (of : Option String),
      (∀ e ∈ parse_jsonl out, wellShapedEvent e = true) →
      (run_review true (.completed rc out err) of).response.events
          = some (parse_jsonl out) ∧
      (run_review true (.completed rc out err) of).response.summary
          = some (specSummary (parse_jsonl out))) := by
  have hparse : ∀ text : String, parse_jsonl text
      = (splitNl (pyStrip text).toList).filterMap
          (fun line => if line = "" then none else json_loads line) := by
    intro text
    unfold parse_jsonl
    rw [parse_jsonl_foldl_eq (fun line => if line = "" then none else json_loads line)]
    · simp
    · intro acc line
      by_cases hl : line = ""
      · simp [hl]
      · cases hj : json_loads line <;> simp [hl, hj]
  have hext : ∀ events : List JValue, (∀ e ∈ events, wellShapedEvent e = true) →
      extract_summary events = .ok (specSummary events) := by
    intro events h
    unfold extract_summary specSummary
    exact extractFromRev_wellShaped events.reverse
      (fun e he => h e (List.mem_reverse.mp he))
  refine ⟨hparse, hext, ?_⟩
  intro rc out err of h
  have h1 := hext (parse_jsonl out) h
  simp [run_review, h1]

/-- Witness for C8 (amended), on a stream containing a bad line, an
unrelated record, and a final completed agent message with text `"OK"`:
the summary is `"OK"`. -/
theorem summary_extraction_amended_witness :
    ((run_review true (.completed 0
        ("garbage\n\x7b\"type\": \"turn.started\"\x7d\n\x7b\"type\": \"item.completed\", \"item\": \x7b\"type\": \"agent_message\", \"text\": \"OK\"\x7d\x7d")
        "") none).response.events
      = some (parse_jsonl
        ("garbage\n\x7b\"type\": \"turn.started\"\x7d\n\x7b\"type\": \"item.completed\", \"item\": \x7b\"type\": \"agent_message\", \"text\": \"OK\"\x7d\x7d")) ∧
    (run_review true (.completed 0
        ("garbage\n\x7b\"type\": \"turn.started\"\x7d\n\x7b\"type\": \"item.completed\", \"item\": \x7b\"type\": \"agent_message\", \"text\": \"OK\"\x7d\x7d")
        "") none).response.summary
      = some (specSummary (parse_jsonl
        ("garbage\n\x7b\"type\": \"turn.started\"\x7d\n\x7b\"type\": \"item.completed\", \"item\": \x7b\"type\": \"agent_message\", \"text\": \"OK\"\x7d\x7d")))) ∧
    specSummary (parse_jsonl
        ("garbage\n\x7b\"type\": \"turn.started\"\x7d\n\x7b\"type\": \"item.completed\", \"item\": \x7b\"type\": \"agent_message\", \"text\": \"OK\"\x7d\x7d"))
      = some (.str "OK") :=
  ⟨summary_extraction_amended.2.2 0 _ "" none (by decide), rfl⟩

/-- Counterexample to C9 as stated: a completed subprocess with return
code 1 is a failed invocation (`success = False`), yet the raw output is
still persisted to the caller-specified file. -/
theorem output_file_counterexample :
    (run_review true (.completed 1 "raw output" "boom") (some "review.txt")).response.success
      = false ∧
    (run_review true (.completed 1 "raw output" "boom") (some "review.txt")).fileWritten
      = some "raw output" :=
  ⟨rfl, rfl⟩

/-- Claim C9 as amended: the raw output is persisted to the
caller-specified file whenever the subprocess itself runs to completion —
regardless of its exit status, and even when a later summary-extraction
error turns the response into a failure — and no file is written in the
timeout, tool-not-found, and other-exception branches (or when no output
file was requested). -/
theorem output_file_persistence (j : Bool) (rc : Int) (out err f m : String)
    (of : Option String) :
    (run_review j (.completed rc out err) (some f)).fileWritten = some out ∧
    (run_review j (.completed rc out err) none).fileWritten = none ∧
    (run_review j .timedOut of).fileWritten = none ∧
    (run_review j .notFound of).fileWritten = none ∧
    (run_review j (.raised m) of).fileWritten = none := by
  refine ⟨?_, ?_, rfl, rfl, rfl⟩
  · cases j with
    | false => rfl
    | true =>
        cases hx : extract_summary (parse_jsonl out) with
        | ok s => simp [run_review, hx]
        | error m2 => simp [run_review, hx]
  · cases j with
    | false => rfl
    | true =>
        cases hx : extract_summary (parse_jsonl out) with
        | ok s => simp [run_review, hx]
        | error m2 => simp [run_review, hx]

/-- Claim C10: the timeout, tool-not-found, and other-exception branches
return exactly the minimal failure dict — success `false`, output `None`,
an error message, and neither an events nor a summary key — even when
structured-event output was requested; and any result that does carry an
events or summary key comes from a completed subprocess in
structured-event mode. -/
theorem failure_results_minimal (j : Bool) (of : Option String) (m : String) :
    run_review j .timedOut of
      = ⟨⟨false, none, some "Codex review timed out after 5 minutes", none, none⟩, none⟩ ∧
    run_review j .notFound of
      = ⟨⟨false, none, some "Codex CLI not found. Please install it first.", none, none⟩, none⟩ ∧
    run_review j (.raised m) of
      = ⟨⟨false, none, some ("Unexpected error: " ++ m), none, none⟩, none⟩ ∧
    (∀ outcome : ProcOutcome,
      ((run_review j outcome of).response.events.isSome = true ∨
        (run_review j outcome of).response.summary.isSome = true) →
      j = true ∧ ∃ (rc : Int) (out err : String), outcome = .completed rc out err) := by
  refine ⟨rfl, rfl, rfl, ?_⟩
  intro outcome hyp
  cases outcome with
  | completed rc out err =>
      cases j with
      | true => exact ⟨rfl, rc, out, err, rfl⟩
      | false => rcases hyp with h | h <;> simp [run_review] at h
  | timedOut => rcases hyp with h | h <;> simp [run_review] at h
  | notFound => rcases hyp with h | h <;> simp [run_review] at h
  | raised m2 => rcases hyp with h | h <;> simp [run_review] at h

/-- Witness for C10: a structured-mode completed run carries an events
key, and the theorem traces it back to the completed/structured case. -/
theorem failure_results_minimal_witness :
    true = true ∧ ∃ (rc : Int) (out err : String),
      (ProcOutcome.completed 0 "" "" : ProcOutcome) = .completed rc out err :=
  (failure_results_minimal true none "x").2.2.2 (.completed 0 "" "")
    (Or.inl (by decide))

/-! ## Sanity checks of the embedded library functions on concrete data -/

/-- Sanity check: the serializer reproduces `json.dump(..., indent=2)`
plus the trailing newline on a nested document. -/
theorem writeJsonString_sample :
    writeJsonString (.obj [("a", .arr [.num 1, .str "x"]), ("b", .obj [])])
      = "\x7b\n  \"a\": [\n    1,\n    \"x\"\n  ],\n  \"b\": \x7b\x7d\n\x7d\n" := rfl

/-- Sanity check: the `json.loads` model parses scalars, containers and
whitespace, and rejects non-JSON text. -/
theorem json_loads_sample :
    json_loads "5" = some (.num 5) ∧
    json_loads " \x7b\"a\": [1, true, null, \"x\"]\x7d " =
      some (.obj [("a", .arr [.num 1, .bool true, .null, .str "x"])]) ∧
    json_loads "not json" = none :=
  ⟨rfl, rfl, rfl⟩

/-- Sanity check: `_parse_jsonl` skips unparseable lines and keeps parsed
records in order. -/
theorem parse_jsonl_sample :
    parse_jsonl "bad line\n\x7b\"type\": \"x\"\x7d\n5\n" =
      [.obj [("type", .str "x")], .num 5] := rfl
